import Mathlib

/-!
Verification development for the bulk record reconciliation pipeline of the
`mcci-gps-collector` repository (the CSV parser, record validator/converter,
Directus submission and batch sync engine of `directusService.ts` /
`excelExport.ts`).

Modelling conventions (shallow embedding):
* JS strings are embedded as `List Char`; string literals enter via `String.toList`.
* JS numbers are embedded as `JsNum`: an exact rational, `NaN`, or a signed
  infinity.  (IEEE-754 double rounding is not modelled; all numeric literals in
  the claims are exactly representable at the precision that matters.)
* Network effects (`fetch`) are embedded by passing the resolved response — or
  the thrown transport error — as an explicit argument; `Date.now()` is passed
  as an explicit `now : Nat` argument.
* The inter-request `setTimeout` throttle delay is pure timing and has no
  observable effect on the returned data, so it does not appear in the model.
-/

namespace GpsCollector

/-- JS `String.prototype.trim` / field-level whitespace class. -/
def wsChar (c : Char) : Bool := c.isWhitespace

/-- `s.trim()` on a character list: drop whitespace from both ends. -/
def trimChars (cs : List Char) : List Char :=
  ((cs.dropWhile wsChar).reverse.dropWhile wsChar).reverse

/-- `s.split('\n')`: split a character list at newline characters. -/
def splitLines : List Char → List (List Char)
  | [] => [[]]
  | c :: rest =>
    match splitLines rest with
    | [] => [[]]
    | l :: ls => if c = '\n' then [] :: l :: ls else (c :: l) :: ls

/-- `s.split(',')`: naive split at commas (used only for the header line). -/
def splitOnComma : List Char → List (List Char)
  | [] => [[]]
  | c :: rest =>
    match splitOnComma rest with
    | [] => [[]]
    | l :: ls => if c = ',' then [] :: l :: ls else (c :: l) :: ls

/-- `haystack.includes(needle)`: substring test, as in JS `String.prototype.includes`. -/
def containsSub (pat : List Char) : List Char → Bool
  | [] => pat.isEmpty
  | c :: rest => pat.isPrefixOf (c :: rest) || containsSub pat rest

/-- Decimal rendering of a natural number (for `${Date.now()}`-style interpolation). -/
def natToChars (n : Nat) : List Char := Nat.toDigits 10 n

/-!
Kernel-reducible rational arithmetic.  `Rat.mul` / `Rat.inv` are
`@[irreducible]`, so the model uses these equivalent definitions built from
`Rat.normalize` / `Rat.divInt` (bridging lemmas below relate them to `*`, `/`
and `|·|`), keeping every definition evaluable by `decide`.
-/

/-- Multiplication of rationals (equal to `a * b`). -/
def ratMul (a b : Rat) : Rat :=
  Rat.normalize (a.num * b.num) (a.den * b.den) (Nat.mul_ne_zero a.den_nz b.den_nz)

/-- Division of rationals (equal to `a / b`, with `a / 0 = 0`). -/
def ratDiv (a b : Rat) : Rat :=
  Rat.divInt (a.num * (b.den : Int)) ((a.den : Int) * b.num)

/-- The rational `10 ^ k`. -/
def ratPow10 (k : Nat) : Rat := ((10 ^ k : Nat) : Rat)

/-- `Math.abs` on rationals (equal to `|q|`). -/
def ratAbs (q : Rat) : Rat := if q.num < 0 then -q else q

/-!
### Tabular Parser — `parseCSVLine` (directusService.ts:74-104)

The JS loop walks the line character by character with an `inQuotes` flag:
a `"` toggles quote mode (a doubled `""` inside quote mode emits a literal
quote and skips one position); a comma outside quote mode ends the field;
every pushed field is `current.trim()`.
-/

/-- The character loop of `parseCSVLine`: `cur` is the accumulated `current` field.
The patterns mirror the JS branch order: escaped quote (with index skip), quote
toggle, delimiter comma, ordinary character. -/
def parseLineAux : List Char → List Char → Bool → List (List Char)
  | [], cur, _ => [trimChars cur]
  | '\"' :: '\"' :: rest2, cur, true => parseLineAux rest2 (cur ++ ['\"']) true
  | '\"' :: rest, cur, true => parseLineAux rest cur false
  | '\"' :: rest, cur, false => parseLineAux rest cur true
  | ',' :: rest, cur, true => parseLineAux rest (cur ++ [',']) true
  | ',' :: rest, cur, false => trimChars cur :: parseLineAux rest [] false
  | c :: rest, cur, inQuotes => parseLineAux rest (cur ++ [c]) inQuotes

/-- `parseCSVLine`: split one CSV line into trimmed, unquoted fields. -/
def parseCSVLine (line : List Char) : List (List Char) :=
  parseLineAux line [] false

/-!
### CSV serialization — the per-row serializer of `locationsToCSV` (excelExport.ts)

`row.map(cell => `"${String(cell).replace(/"/g, '""')}"`).join(',')`:
every cell is fully quoted with embedded quotes doubled.
-/

/-- `cell.replace(/"/g, '""')`: double every quote character. -/
def escQuotes : List Char → List Char
  | [] => []
  | c :: rest => if c = '\"' then '\"' :: '\"' :: escQuotes rest else c :: escQuotes rest

/-- One fully quoted cell of the exporter. -/
def serializeCell (cell : List Char) : List Char :=
  '\"' :: (escQuotes cell ++ ['\"'])

/-- The exporter's row serialization: quoted cells joined by commas. -/
def serializeRow : List (List Char) → List Char
  | [] => []
  | [cell] => serializeCell cell
  | cell :: cell2 :: rest => serializeCell cell ++ ',' :: serializeRow (cell2 :: rest)

/-!
### Tabular Parser — `parseCSV` (directusService.ts:45-69)

`csvContent.trim().split('\n')`; fewer than two lines throws the empty-input
error (modelled as `none`).  The header line is split naively on commas with
all quote characters removed and each cell trimmed; every data line is parsed
with `parseCSVLine`, and a line whose field count differs from the header's is
skipped (a `console.warn` diagnostic only).  A parsed row is the header-keyed
object, modelled as the association list `headers.zip values`.
-/

/-- Header cells: `header.replace(/"/g, '').trim()` applied to a naive comma split. -/
def csvHeaders (headerLine : List Char) : List (List Char) :=
  (splitOnComma headerLine).map (fun h => trimChars (h.filter (fun c => c != '\"')))

/-- One data line: `some` row when the field count matches the header, else skipped. -/
def csvRowOf (headers : List (List Char)) (line : List Char) :
    Option (List (List Char × List Char)) :=
  let values := parseCSVLine line
  if values.length = headers.length then some (headers.zip values) else none

/-- `parseCSV`: `none` models the thrown
`'CSV file must contain at least a header row and one data row'` error. -/
def parseCSV (content : List Char) : Option (List (List (List Char × List Char))) :=
  match splitLines (trimChars content) with
  | headerLine :: firstData :: restData =>
      some ((firstData :: restData).filterMap (csvRowOf (csvHeaders headerLine)))
  | _ => none

/-!
### JS value model: JSON values and numbers

`JsNum` models a JS number: `NaN`, a signed infinity, or an exact rational
(IEEE-754 rounding is not modelled).  `JsonVal` models a `JSON.parse` result.
-/

inductive JsNum where
  | nan : JsNum
  | inf : Bool → JsNum
  | fin : Rat → JsNum
deriving DecidableEq

/-- `isNaN(x)`. -/
def JsNum.isNaN : JsNum → Bool
  | .nan => true
  | _ => false

/-- `Math.abs(x) > bound` (false for `NaN`, true for infinities). -/
def JsNum.absGt : JsNum → Rat → Bool
  | .nan, _ => false
  | .inf _, _ => true
  | .fin q, bound => decide (bound < ratAbs q)

/-- `x !== q` for a rational literal `q` (`NaN !== q` and `±Infinity !== q` are true). -/
def JsNum.strictNe : JsNum → Rat → Bool
  | .fin x, q => decide (x ≠ q)
  | _, _ => true

mutual

inductive JsonVal where
  | nul : JsonVal
  | boolean : Bool → JsonVal
  | num : Rat → JsonVal
  | str : List Char → JsonVal
  | arr : JsonArr → JsonVal
  | obj : JsonObj → JsonVal

/-- The element spine of a JSON array (an inlined list, keeping the family
mutually inductive so that all recursion stays structural). -/
inductive JsonArr where
  | nil : JsonArr
  | cons : JsonVal → JsonArr → JsonArr

/-- The member spine of a JSON object: `key, value` pairs in source order. -/
inductive JsonObj where
  | nil : JsonObj
  | cons : List Char → JsonVal → JsonObj → JsonObj

end

/-- JS truthiness of a `JSON.parse` result. -/
def jsTruthy : JsonVal → Bool
  | .nul => false
  | .boolean b => b
  | .num q => decide (q ≠ 0)
  | .str s => !s.isEmpty
  | .arr _ => true
  | .obj _ => true

/-- Property lookup on a parsed JSON object (`JSON.parse` keeps the last
duplicate key, so a later member shadows an earlier one). -/
def objGet : JsonObj → List Char → Option JsonVal
  | .nil, _ => none
  | .cons k v rest, key =>
    match objGet rest key with
    | some r => some r
    | none => if k == key then some v else none

/-!
### `JSON.parse` model

A strict RFC-8259 parser over `List Char`.  Numbers are read exactly into
`Rat` (no double rounding, so astronomically large literals do not overflow to
`Infinity` as they would in JS).  `\u` escapes outside the Basic Multilingual
Plane (surrogate pairs) are not combined.  Mutual recursion is fuelled; the
top-level entry point supplies fuel that is always sufficient.
-/

/-- JSON insignificant whitespace. -/
def jsonWsChar (c : Char) : Bool :=
  c == ' ' || c == '\t' || c == '\n' || c == '\r'

def skipJsonWs (cs : List Char) : List Char := cs.dropWhile jsonWsChar

/-- Hexadecimal digit value. -/
def hexVal (c : Char) : Option Nat :=
  if '0' ≤ c ∧ c ≤ '9' then some (c.toNat - '0'.toNat)
  else if 'a' ≤ c ∧ c ≤ 'f' then some (c.toNat - 'a'.toNat + 10)
  else if 'A' ≤ c ∧ c ≤ 'F' then some (c.toNat - 'A'.toNat + 10)
  else none

/-- Decimal digits to a natural number. -/
def digitsToNat (ds : List Char) : Nat :=
  ds.foldl (fun a c => a * 10 + (c.toNat - '0'.toNat)) 0

/-- Longest digit run at the front. -/
def takeDigits (cs : List Char) : List Char × List Char :=
  (cs.takeWhile Char.isDigit, cs.dropWhile Char.isDigit)

/-- Scale a rational by a power of ten given as an integer exponent. -/
def scalePow10 (q : Rat) (e : Int) : Rat :=
  if 0 ≤ e then ratMul q (ratPow10 e.toNat) else ratDiv q (ratPow10 (-e).toNat)

/-- Single-character JSON escapes (everything except `\u`). -/
def jsonEscChar (e : Char) : Option Char :=
  if e = '\"' then some '\"'
  else if e = '\\' then some '\\'
  else if e = '/' then some '/'
  else if e = 'b' then some '\x08'
  else if e = 'f' then some '\x0c'
  else if e = 'n' then some '\n'
  else if e = 'r' then some '\r'
  else if e = 't' then some '\t'
  else none

/-- JSON string body after the opening quote; returns the decoded characters
and the remainder after the closing quote. -/
def parseJsonStringBody : List Char → Option (List Char × List Char)
  | [] => none
  | '\"' :: rest => some ([], rest)
  | '\\' :: 'u' :: h1 :: h2 :: h3 :: h4 :: rest2 =>
    match hexVal h1, hexVal h2, hexVal h3, hexVal h4 with
    | some a, some b, some c, some d =>
        (parseJsonStringBody rest2).map
          (fun q => (Char.ofNat (((a * 16 + b) * 16 + c) * 16 + d) :: q.1, q.2))
    | _, _, _, _ => none
  | '\\' :: e :: rest =>
    match jsonEscChar e with
    | some ch => (parseJsonStringBody rest).map (fun q => (ch :: q.1, q.2))
    | none => none
  | c :: rest =>
    if c.toNat < 0x20 then none
    else (parseJsonStringBody rest).map (fun q => (c :: q.1, q.2))

/-- JSON number at the front of the input (strict grammar:
`-? (0 | [1-9][0-9]*) (. [0-9]+)? ([eE][+-]?[0-9]+)?`). -/
def parseJsonNumber (cs : List Char) : Option (Rat × List Char) :=
  let (neg, cs1) := match cs with
    | '-' :: r => (true, r)
    | _ => (false, cs)
  let intRes : Option (List Char × List Char) := match cs1 with
    | '0' :: r => some (['0'], r)
    | c :: r => if c.isDigit then some (takeDigits (c :: r)) else none
    | [] => none
  match intRes with
  | none => none
  | some (ids, r1) =>
    let fracRes : Option (List Char × List Char) := match r1 with
      | '.' :: r2 =>
        let (fds, r3) := takeDigits r2
        if fds.isEmpty then none else some (fds, r3)
      | _ => some ([], r1)
    match fracRes with
    | none => none
    | some (fds, r4) =>
      let expRes : Option (Int × List Char) := match r4 with
        | e :: r5 =>
          if e = 'e' ∨ e = 'E' then
            let (esgn, r6) := match r5 with
              | '-' :: r => (true, r)
              | '+' :: r => (false, r)
              | _ => (false, r5)
            let (eds, r7) := takeDigits r6
            if eds.isEmpty then none
            else some ((if esgn then -(digitsToNat eds : Int) else (digitsToNat eds : Int)), r7)
          else some (0, r4)
        | [] => some (0, r4)
      match expRes with
      | none => none
      | some (ex, r8) =>
        let mantissa : Rat :=
          ratDiv ((digitsToNat ids * 10 ^ fds.length + digitsToNat fds : Nat) : Rat)
            (ratPow10 fds.length)
        let q := scalePow10 mantissa ex
        some ((if neg then -q else q), r8)

mutual

/-- JSON value at the front of the input (after skipping whitespace). -/
def parseJsonValueAux : Nat → List Char → Option (JsonVal × List Char)
  | 0, _ => none
  | fuel + 1, cs =>
    match skipJsonWs cs with
    | [] => none
    | c :: rest =>
      if c = '\x7b' then
        match skipJsonWs rest with
        | '\x7d' :: r2 => some (.obj .nil, r2)
        | r => (parseJsonObjMembers fuel r).map (fun p => (.obj p.1, p.2))
      else if c = '[' then
        match skipJsonWs rest with
        | ']' :: r2 => some (.arr .nil, r2)
        | r => (parseJsonArrayItems fuel r).map (fun p => (.arr p.1, p.2))
      else if c = '\"' then
        (parseJsonStringBody rest).map (fun p => (.str p.1, p.2))
      else if c = 't' then
        match rest with
        | 'r' :: 'u' :: 'e' :: r2 => some (.boolean true, r2)
        | _ => none
      else if c = 'f' then
        match rest with
        | 'a' :: 'l' :: 's' :: 'e' :: r2 => some (.boolean false, r2)
        | _ => none
      else if c = 'n' then
        match rest with
        | 'u' :: 'l' :: 'l' :: r2 => some (.nul, r2)
        | _ => none
      else
        (parseJsonNumber (c :: rest)).map (fun p => (.num p.1, p.2))

/-- Comma-separated array items up to the closing bracket. -/
def parseJsonArrayItems : Nat → List Char → Option (JsonArr × List Char)
  | 0, _ => none
  | fuel + 1, cs =>
    match parseJsonValueAux fuel cs with
    | none => none
    | some (v, r) =>
      match skipJsonWs r with
      | ',' :: r2 => (parseJsonArrayItems fuel r2).map (fun p => (.cons v p.1, p.2))
      | ']' :: r2 => some (.cons v .nil, r2)
      | _ => none

/-- Comma-separated `"key": value` members up to the closing brace. -/
def parseJsonObjMembers : Nat → List Char → Option (JsonObj × List Char)
  | 0, _ => none
  | fuel + 1, cs =>
    match skipJsonWs cs with
    | '\"' :: r =>
      match parseJsonStringBody r with
      | none => none
      | some (key, r2) =>
        match skipJsonWs r2 with
        | ':' :: r3 =>
          match parseJsonValueAux fuel r3 with
          | none => none
          | some (v, r4) =>
            match skipJsonWs r4 with
            | ',' :: r5 => (parseJsonObjMembers fuel r5).map (fun p => (.cons key v p.1, p.2))
            | '\x7d' :: r5 => some (.cons key v .nil, r5)
            | _ => none
        | _ => none
    | _ => none

end

/-- `JSON.parse(s)`: `none` models a thrown `SyntaxError`. -/
def jsonParse (cs : List Char) : Option JsonVal :=
  match parseJsonValueAux (2 * cs.length + 4) cs with
  | some (v, r) => if (skipJsonWs r).isEmpty then some v else none
  | none => none

/-!
### `parseFloat` model

JS `parseFloat(s)`: skip leading whitespace, optional sign, then either
`Infinity` or the longest decimal-literal prefix (`digits (. digits?)?` or
`. digits`, with an optional well-formed exponent; a malformed exponent is
simply not consumed).  `NaN` when no digits are found.
-/

/-- `parseFloat` on a string. -/
def parseFloatChars (cs0 : List Char) : JsNum :=
  let cs := cs0.dropWhile wsChar
  let (neg, cs1) := match cs with
    | '-' :: r => (true, r)
    | '+' :: r => (false, r)
    | _ => (false, cs)
  if "Infinity".toList.isPrefixOf cs1 then .inf !neg
  else
    let (ids, r1) := takeDigits cs1
    let (fds, r2) := match r1 with
      | '.' :: r => takeDigits r
      | _ => ([], r1)
    if ids.isEmpty ∧ fds.isEmpty then .nan
    else
      let ex : Int := match r2 with
        | e :: r3 =>
          if e = 'e' ∨ e = 'E' then
            let (esgn, r4) := match r3 with
              | '-' :: r => (true, r)
              | '+' :: r => (false, r)
              | _ => (false, r3)
            let (eds, _) := takeDigits r4
            if eds.isEmpty then 0
            else if esgn then -(digitsToNat eds : Int) else (digitsToNat eds : Int)
          else 0
        | [] => 0
      let mantissa : Rat :=
        ratDiv ((digitsToNat ids * 10 ^ fds.length + digitsToNat fds : Nat) : Rat)
          (ratPow10 fds.length)
      let q := scalePow10 mantissa ex
      .fin (if neg then -q else q)

mutual

/-- `parseFloat(v)` for an arbitrary JS value `v`: the argument is converted to
a string first.  A number converts to its own literal (round-trip identity);
objects, booleans and `null` convert to non-numeric text. -/
def jsParseFloatVal : JsonVal → JsNum
  | .num q => .fin q
  | .str s => parseFloatChars s
  | .nul => .nan
  | .boolean _ => .nan
  | .obj _ => .nan
  | .arr items => jsParseFloatArr items

/-- `parseFloat` of an array value (`String(arr)` joins elements with commas,
and a comma terminates any number literal, so only the first element matters;
`null` joins as the empty string). -/
def jsParseFloatArr : JsonArr → JsNum
  | .nil => .nan
  | .cons JsonVal.nul _ => .nan
  | .cons x _ => jsParseFloatVal x

end

/-!
### Record Validator/Converter — `convertCSVToDirectusRecords` (directusService.ts:107-169)
-/

inductive ValidationStatus where
  | valid : ValidationStatus
  | invalid : ValidationStatus
  | warning : ValidationStatus
deriving DecidableEq

inductive SyncStatus where
  | success : SyncStatus
  | error : SyncStatus
  | pending : SyncStatus
  | processing : SyncStatus
deriving DecidableEq

/-- The `CSVRow` interface: header-keyed string cells.  A missing cell is the
empty string (falsy either way); `shop_location` is the interface's optional
field.  The fields with dots in their TS names are camel-cased here. -/
structure CSVRow where
  id : List Char
  shop_name : List Char
  shop_location : Option (List Char)
  shop_malls : List Char
  shopLocationType : List Char
  shopLocationCoordinates : List Char
deriving DecidableEq

/-- The `DirectusShopRecord` interface. -/
structure DirectusShopRecord where
  id : List Char
  shop_name : List Char
  shop_location : Option (List Char)
  shop_malls : List Char
  shopLocationType : List Char
  shopLocationCoordinates : List Char
  latitude : JsNum
  longitude : JsNum
  mall_name : List Char
  validation_status : ValidationStatus
  validation_errors : List (List Char)
deriving DecidableEq

def missingCoordsMsg : List Char := "Missing coordinates".toList
def invalidFormatMsg : List Char := "Invalid coordinates format".toList
def invalidValuesMsg : List Char := "Invalid coordinate values".toList
def outOfRangeMsg : List Char := "Coordinates out of valid range".toList
def arrayShapeMsg : List Char := "Coordinates must be an array of [longitude, latitude]".toList
def shopNameRequiredMsg : List Char := "Shop name is required".toList
def idRequiredMsg : List Char := "ID is required".toList

/-- The coordinate-parsing block of the converter: the errors it pushes plus
the final values of the `latitude` and `longitude` locals (both initialised to
`0`; in the two-element-array branch they are assigned the `parseFloat` results
before any range check). -/
def coordResult (cell : List Char) : List (List Char) × JsNum × JsNum :=
  if cell.isEmpty then ([missingCoordsMsg], .fin 0, .fin 0)
  else
    match jsonParse cell with
    | none => ([invalidFormatMsg], .fin 0, .fin 0)
    | some (.arr (.cons a (.cons b .nil))) =>
      let longitude := jsParseFloatVal a
      let latitude := jsParseFloatVal b
      if longitude.isNaN || latitude.isNaN then ([invalidValuesMsg], latitude, longitude)
      else if latitude.absGt 90 || longitude.absGt 180 then
        ([outOfRangeMsg], latitude, longitude)
      else ([], latitude, longitude)
    | some _ => ([arrayShapeMsg], .fin 0, .fin 0)

/-- The converter's classification test:
`err.includes('required') || err.includes('Missing') || err.includes('Invalid coordinate')`
(JS `includes` is a case-sensitive substring test). -/
def codeMatch (err : List Char) : Bool :=
  containsSub "required".toList err || containsSub "Missing".toList err ||
    containsSub "Invalid coordinate".toList err

/-- The error accumulation of one converter row, in push order: the coordinate
block's errors, then the `shop_name` required check, then the `id` required
check. -/
def rowErrors (row : CSVRow) : List (List Char) :=
  (coordResult row.shopLocationCoordinates).1 ++
    (if row.shop_name.isEmpty || (trimChars row.shop_name).isEmpty
      then [shopNameRequiredMsg] else []) ++
    (if row.id.isEmpty || (trimChars row.id).isEmpty then [idRequiredMsg] else [])

/-- The converter's status determination from the accumulated errors. -/
def rowStatus (errors : List (List Char)) : ValidationStatus :=
  if errors.length > 0 then
    if errors.any codeMatch then .invalid else .warning
  else .valid

/-- One row of `convertCSVToDirectusRecords` (the body of the `.map`).  `now`
is the ambient `Date.now()` value; `index` the row index. -/
def convertRow (now index : Nat) (row : CSVRow) : DirectusShopRecord :=
  let cr := coordResult row.shopLocationCoordinates
  let latitude := cr.2.1
  let longitude := cr.2.2
  let errors := rowErrors row
  let validationStatus := rowStatus errors
  { id := if !row.id.isEmpty then row.id
      else "imported-".toList ++ natToChars now ++ "-".toList ++ natToChars index
    shop_name := row.shop_name
    shop_location := match row.shop_location with
      | some s => if s.isEmpty then none else some s
      | none => none
    shop_malls := if !row.shop_malls.isEmpty then row.shop_malls else "[]".toList
    shopLocationType := if !row.shopLocationType.isEmpty then row.shopLocationType
      else "Point".toList
    shopLocationCoordinates := row.shopLocationCoordinates
    latitude := latitude
    longitude := longitude
    mall_name := []
    validation_status := validationStatus
    validation_errors := errors }

/-- The indexed `.map` of the converter. -/
def convertFrom (now : Nat) : Nat → List CSVRow → List DirectusShopRecord
  | _, [] => []
  | i, row :: rest => convertRow now i row :: convertFrom now (i + 1) rest

/-- `convertCSVToDirectusRecords`, with the ambient `Date.now()` passed explicitly. -/
def convertCSVToDirectusRecords (now : Nat) (csvRows : List CSVRow) :
    List DirectusShopRecord :=
  convertFrom now 0 csvRows

/-!
### Batch Sync Engine — `updateDirectusShopRecord` / `batchUpdateDirectusRecords`
(directusService.ts:172-276)

The PATCH request is embedded by passing the environment's behaviour as a
function from the submitted payload to the resolved outcome: either a thrown
transport error or an HTTP response `(status, parsed JSON body)` where a body
that is not valid JSON is `none` (so `response.json()` throws).
-/

/-- The `BatchUpdateResult` interface (one `SyncOutcome`). -/
structure BatchUpdateResult where
  id : List Char
  status : SyncStatus
  message : List Char
  record : DirectusShopRecord
deriving DecidableEq

/-- The update payload built by `updateDirectusShopRecord`: exactly the four
fields `location_updated`, `shop_name`, `shop_location` (a geometry object
`type`/`coordinates`, here the type string and the `[longitude, latitude]`
pair) and `shop_address`; `shop_malls` is never included. -/
structure UpdatePayload where
  location_updated : Bool
  shop_name : Option (List Char)
  shop_location : Option (List Char × List JsNum)
  shop_address : Option (List Char)
deriving DecidableEq

/-- A resolved `fetch`: a thrown transport error, or a response with an HTTP
status and a JSON-parsed body (`none` when the raw body is not valid JSON). -/
inductive FetchResult where
  | exn : List Char → FetchResult
  | resp : Nat → Option JsonVal → FetchResult

/-- `Response.ok`: status in the 2xx range. -/
def httpOk (status : Nat) : Bool := 200 ≤ status && status ≤ 299

/-- The payload construction at the top of `updateDirectusShopRecord`. -/
def buildUpdateData (record : DirectusShopRecord) : UpdatePayload :=
  { location_updated := true
    shop_name :=
      if !record.shop_name.isEmpty && !(trimChars record.shop_name).isEmpty
        then some (trimChars record.shop_name) else none
    shop_location :=
      if record.latitude.strictNe 0 && record.longitude.strictNe 0
        then some ("Point".toList, [record.longitude, record.latitude]) else none
    shop_address := match record.shop_location with
      | some s => if !s.isEmpty && !(trimChars s).isEmpty then some (trimChars s) else none
      | none => none }

/-- `errorData.message || 'HTTP error! status: ...'` for a non-ok response;
the `.catch(() => ({}))` turns an unparseable error body into `{}`.  (A truthy
non-string `message` value would be string-converted by JS; only string
messages are modelled.) -/
def errorMessageOf (status : Nat) (body : Option JsonVal) : List Char :=
  let fallback := "HTTP error! status: ".toList ++ natToChars status
  match body with
  | some (.obj fs) =>
    match objGet fs "message".toList with
    | some (.str s) => if s.isEmpty then fallback else s
    | _ => fallback
  | _ => fallback

/-- The message of the `SyntaxError` thrown by `response.json()` on a 2xx
response whose body is not valid JSON (exact JS wording is engine-dependent;
a fixed representative literal is used). -/
def jsonBodyErrorMsg : List Char := "Unexpected end of JSON input".toList

/-- The logical not-found message for a 2xx response with no data payload. -/
def notFoundMessage (id : List Char) : List Char :=
  "Shop ID \"".toList ++ id ++ "\" not found in Directus. Please verify the shop ID exists.".toList

/-- Truthiness of `responseData.data` (`false` when the parsed body is not an
object, since the property is then `undefined`). -/
def jsDataTruthy : JsonVal → Bool
  | .obj fs =>
    match objGet fs "data".toList with
    | some d => jsTruthy d
    | none => false
  | _ => false

/-- `updateDirectusShopRecord`, with the network embedded as `respond`. -/
def updateDirectusShopRecord (record : DirectusShopRecord)
    (respond : UpdatePayload → FetchResult) : BatchUpdateResult :=
  match respond (buildUpdateData record) with
  | .exn msg => ⟨record.id, .error, msg, record⟩
  | .resp status body =>
    if httpOk status then
      match body with
      | none => ⟨record.id, .error, jsonBodyErrorMsg, record⟩
      | some v =>
        if !jsTruthy v || !jsDataTruthy v then
          ⟨record.id, .error, notFoundMessage record.id, record⟩
        else ⟨record.id, .success, "Record updated successfully".toList, record⟩
    else ⟨record.id, .error, errorMessageOf status body, record⟩

/-- The eligibility filter of the batch engine:
`records.filter(record => record.validation_status !== 'invalid')`. -/
def validRecords (records : List DirectusShopRecord) : List DirectusShopRecord :=
  records.filter (fun r => decide (r.validation_status ≠ .invalid))

/-- The batch loop from index `i`: returns the `results` ledger and the trace
of `onProgress` invocations `(progress, current)` in call order, with
`progress = ((i + 1) / total) * 100`.  The inter-request `setTimeout` delay
has no data effect and is elided. -/
def batchRunFrom (respond : Nat → UpdatePayload → FetchResult) (total : Nat) :
    Nat → List DirectusShopRecord → List BatchUpdateResult × List (Rat × BatchUpdateResult)
  | _, [] => ([], [])
  | i, r :: rest =>
    let result := updateDirectusShopRecord r (respond i)
    let progress : Rat := ratMul (ratDiv ((i + 1 : Nat) : Rat) ((total : Nat) : Rat)) 100
    let tail := batchRunFrom respond total (i + 1) rest
    (result :: tail.1, (progress, result) :: tail.2)

/-- `batchUpdateDirectusRecords`: filter out invalid records, then process the
eligible records sequentially. -/
def batchUpdateDirectusRecords (records : List DirectusShopRecord)
    (respond : Nat → UpdatePayload → FetchResult) :
    List BatchUpdateResult × List (Rat × BatchUpdateResult) :=
  batchRunFrom respond (validRecords records).length 0 (validRecords records)

/-!
### Spec-side definitions

`specClassification` is the classification rule as the spec words it
(§4.2: case-insensitive substring match on "required" / "missing" /
"invalid coordinate"), to be compared with the converter's own rule.
-/

/-- Case-insensitive substring match, as the spec's classification rule words it. -/
def ciContains (pat s : List Char) : Bool :=
  containsSub (pat.map Char.toLower) (s.map Char.toLower)

/-- The spec's per-error pattern test. -/
def specMatch (err : List Char) : Bool :=
  ciContains "required".toList err || ciContains "missing".toList err ||
    ciContains "invalid coordinate".toList err

/-- The spec's classification rule: any pattern match → `invalid`; else a
non-empty error list → `warning`; else `valid`. -/
def specClassification (errors : List (List Char)) : ValidationStatus :=
  if errors.any specMatch then .invalid
  else if !errors.isEmpty then .warning
  else .valid

/-- Every error literal the converter can produce. -/
def errorLits : List (List Char) :=
  [missingCoordsMsg, invalidFormatMsg, invalidValuesMsg, outOfRangeMsg, arrayShapeMsg,
    shopNameRequiredMsg, idRequiredMsg]

/-- A line containing at least one non-whitespace character. -/
def nonBlankLine (l : List Char) : Bool := l.any (fun c => !wsChar c)

/-- The number of non-blank lines of an input text (the claim's "non-empty
lines", reading a line of bare whitespace as empty). -/
def countNonBlankLines (content : List Char) : Nat :=
  ((splitLines content).filter nonBlankLine).length

/-- Left-to-right accumulator equivalent of `countNonBlankLines`: `cur` records
whether the current line has already seen a non-whitespace character. -/
def nbAux : List Char → Bool → Nat
  | [], cur => if cur then 1 else 0
  | c :: rest, cur =>
    if c = '\n' then (if cur then 1 else 0) + nbAux rest false
    else nbAux rest (cur || !wsChar c)

/-!
### Bridging and utility lemmas
-/

lemma ratMul_eq (a b : Rat) : ratMul a b = a * b := by
  rw [Rat.mul_def]; rfl

lemma ratDiv_eq (a b : Rat) : ratDiv a b = a / b := by
  rw [div_eq_mul_inv]
  by_cases hb : b.num = 0
  · have hb0 : b = 0 := Rat.num_eq_zero.mp hb
    rw [hb0]
    simp [ratDiv, hb0]
  · conv_rhs => rw [← Rat.num_divInt_den a, Rat.inv_def']
    rw [Rat.divInt_mul_divInt a.num (b.den : Int) (Int.natCast_ne_zero.mpr a.den_nz) hb]
    rfl

lemma isPrefixOf_append_self (l t : List Char) : l.isPrefixOf (l ++ t) = true := by
  induction l with
  | nil => simp [List.isPrefixOf]
  | cons x xs ih => simp [List.isPrefixOf, ih]

lemma containsSub_append_self (l p r : List Char) :
    containsSub p (l ++ (p ++ r)) = true := by
  induction l with
  | nil =>
    cases p with
    | nil => cases r <;> simp [containsSub]
    | cons x xs =>
      show containsSub (x :: xs) ((x :: xs) ++ r) = true
      rw [List.cons_append, containsSub]
      rw [← List.cons_append, isPrefixOf_append_self]
      rfl
  | cons c l ih =>
    rw [List.cons_append, containsSub, ih, Bool.or_true]

lemma trimChars_nil : trimChars [] = [] := rfl

lemma isEmpty_eq_false_of_trim {s : List Char} (h : (trimChars s).isEmpty = false) :
    s.isEmpty = false := by
  cases s with
  | nil => rw [trimChars_nil] at h; cases h
  | cons c t => rfl

/-!
### Claim C1 — not-found semantics of `updateDirectusShopRecord`
-/

/-- C1: for every attempted record, a PATCH whose resolved response has a 2xx
status and a parsed body that is empty (falsy) or carries no truthy `data`
payload yields an outcome with status `error` whose message names the record's
id as not found; a 2xx response whose body carries a `data` payload yields
status `success`. -/
theorem claim1_notfound_semantics (record : DirectusShopRecord)
    (respond : UpdatePayload → FetchResult) (status : Nat) (v : JsonVal)
    (hresp : respond (buildUpdateData record) = FetchResult.resp status (some v))
    (hok : httpOk status = true) :
    (¬(jsTruthy v = true ∧ jsDataTruthy v = true) →
      (updateDirectusShopRecord record respond).status = SyncStatus.error ∧
      (updateDirectusShopRecord record respond).message = notFoundMessage record.id ∧
      containsSub record.id (updateDirectusShopRecord record respond).message = true) ∧
    (jsTruthy v = true → jsDataTruthy v = true →
      (updateDirectusShopRecord record respond).status = SyncStatus.success) := by
  have key : updateDirectusShopRecord record respond =
      (if !jsTruthy v || !jsDataTruthy v then
        ⟨record.id, .error, notFoundMessage record.id, record⟩
      else ⟨record.id, .success, "Record updated successfully".toList, record⟩) := by
    unfold updateDirectusShopRecord
    rw [hresp]
    simp [hok]
  constructor
  · intro hno
    have hbool : (!jsTruthy v || !jsDataTruthy v) = true := by
      rcases h1 : jsTruthy v <;> rcases h2 : jsDataTruthy v <;> simp_all
    rw [key, if_pos hbool]
    refine ⟨rfl, rfl, ?_⟩
    show containsSub record.id (notFoundMessage record.id) = true
    unfold notFoundMessage
    rw [List.append_assoc]
    exact containsSub_append_self _ _ _
  · intro h1 h2
    rw [key]
    simp [h1, h2]

/-- C1 witness: a concrete 2xx response with a `null` data payload is reported
as a not-found error. -/
theorem claim1_witness :
    (updateDirectusShopRecord
        ⟨['A'], ['S'], none, [], [], [], .fin 1, .fin 2, [], .valid, []⟩
        (fun _ => FetchResult.resp 200 (some (.obj (.cons "data".toList .nul .nil))))).status =
      SyncStatus.error :=
  (claim1_notfound_semantics
      ⟨['A'], ['S'], none, [], [], [], .fin 1, .fin 2, [], .valid, []⟩
      (fun _ => FetchResult.resp 200 (some (.obj (.cons "data".toList .nul .nil))))
      200 (.obj (.cons "data".toList .nul .nil)) rfl rfl).1
    (by intro h; exact absurd h.2 (by decide)) |>.1

/-!
### Claim C8 — the update payload
-/

/-- C8: the submitted payload always carries the `location_updated` flag, the
trimmed display name exactly when it is non-empty after trimming, the geometry
object `("Point", [longitude, latitude])` exactly when both coordinates are
strictly non-zero, and the free-text address exactly when the optional field is
present and non-empty after trimming — and nothing else (the payload type has
no other fields; in particular `shop_malls` is never included). -/
theorem claim8_payload_fields (record : DirectusShopRecord) :
    buildUpdateData record =
      { location_updated := true
        shop_name :=
          if (trimChars record.shop_name).isEmpty then none
          else some (trimChars record.shop_name)
        shop_location :=
          if record.latitude.strictNe 0 && record.longitude.strictNe 0
            then some ("Point".toList, [record.longitude, record.latitude]) else none
        shop_address :=
          match record.shop_location with
          | some s => if (trimChars s).isEmpty then none else some (trimChars s)
          | none => none } := by
  unfold buildUpdateData
  rcases record.shop_location with _ | s
  · rcases h1 : (trimChars record.shop_name).isEmpty <;>
      simp [h1, isEmpty_eq_false_of_trim]
  · rcases h1 : (trimChars record.shop_name).isEmpty <;>
      rcases h2 : (trimChars s).isEmpty <;>
        simp [h1, h2, isEmpty_eq_false_of_trim]

/-!
### Converter lemmas (for C2, C3, C6, C7)
-/

lemma coordResult_missing {cell : List Char} (h : cell.isEmpty = true) :
    coordResult cell = ([missingCoordsMsg], .fin 0, .fin 0) := by
  unfold coordResult
  simp [h]

lemma coordResult_parse_fail {cell : List Char} (hne : cell.isEmpty = false)
    (hp : jsonParse cell = none) :
    coordResult cell = ([invalidFormatMsg], .fin 0, .fin 0) := by
  unfold coordResult
  simp [hne, hp]

lemma coordResult_not_arr2 {cell : List Char} {v : JsonVal} (hne : cell.isEmpty = false)
    (hp : jsonParse cell = some v)
    (hv : ∀ a b, v ≠ JsonVal.arr (.cons a (.cons b .nil))) :
    coordResult cell = ([arrayShapeMsg], .fin 0, .fin 0) := by
  unfold coordResult
  rcases v with _ | b' | q | s | items | o
  · simp [hne, hp]
  · simp [hne, hp]
  · simp [hne, hp]
  · simp [hne, hp]
  · rcases items with _ | ⟨a, _ | ⟨b, _ | ⟨c, rest⟩⟩⟩
    · simp [hne, hp]
    · simp [hne, hp]
    · exact absurd rfl (hv a b)
    · simp [hne, hp]
  · simp [hne, hp]

lemma coordResult_arr2 {cell : List Char} {a b : JsonVal} (hne : cell.isEmpty = false)
    (hp : jsonParse cell = some (JsonVal.arr (.cons a (.cons b .nil)))) :
    coordResult cell =
      (if ((jsParseFloatVal a).isNaN || (jsParseFloatVal b).isNaN) = true then
        ([invalidValuesMsg], jsParseFloatVal b, jsParseFloatVal a)
      else if ((jsParseFloatVal b).absGt 90 || (jsParseFloatVal a).absGt 180) = true then
        ([outOfRangeMsg], jsParseFloatVal b, jsParseFloatVal a)
      else ([], jsParseFloatVal b, jsParseFloatVal a)) := by
  unfold coordResult
  simp [hne, hp]

lemma coordResult_fst_mem (cell : List Char) :
    ∀ e ∈ (coordResult cell).1, e ∈ errorLits := by
  intro e he
  by_cases h : cell.isEmpty = true
  · rw [coordResult_missing h] at he
    simp at he; simp [he, errorLits]
  · have hne : cell.isEmpty = false := by rwa [Bool.not_eq_true] at h
    rcases hp : jsonParse cell with _ | v
    · rw [coordResult_parse_fail hne hp] at he
      simp at he; simp [he, errorLits]
    · by_cases harr : ∀ a b, v ≠ JsonVal.arr (.cons a (.cons b .nil))
      · rw [coordResult_not_arr2 hne hp harr] at he
        simp at he; simp [he, errorLits]
      · push_neg at harr
        obtain ⟨a, b, rfl⟩ := harr
        rw [coordResult_arr2 hne hp] at he
        split at he
        · simp at he; simp [he, errorLits]
        · split at he
          · simp at he; simp [he, errorLits]
          · simp at he

lemma mem_rowErrors (row : CSVRow) : ∀ e ∈ rowErrors row, e ∈ errorLits := by
  intro e he
  unfold rowErrors at he
  simp only [List.mem_append] at he
  rcases he with (h | h) | h
  · exact coordResult_fst_mem _ e h
  · split at h
    · simp at h; simp [h, errorLits]
    · simp at h
  · split at h
    · simp at h; simp [h, errorLits]
    · simp at h

lemma errorLits_spec_eq_code : ∀ e ∈ errorLits, specMatch e = codeMatch e := by decide

lemma any_congr_on {α : Type} (p q : α → Bool) :
    ∀ l : List α, (∀ e ∈ l, p e = q e) → l.any p = l.any q := by
  intro l h
  induction l with
  | nil => rfl
  | cons x xs ih =>
    simp only [List.any_cons]
    rw [h x (by simp), ih (fun e he => h e (by simp [he]))]

lemma rowStatus_eq_specClassification (errs : List (List Char))
    (h : errs.any specMatch = errs.any codeMatch) :
    rowStatus errs = specClassification errs := by
  unfold rowStatus specClassification
  rw [← h]
  cases errs with
  | nil => simp
  | cons e es =>
    cases h2 : (e :: es).any specMatch <;> simp [h2]

lemma rowStatus_valid_iff (errs : List (List Char)) :
    errs = [] ↔ rowStatus errs = ValidationStatus.valid := by
  unfold rowStatus
  cases errs with
  | nil => simp
  | cons e es =>
    cases h2 : ((e :: es).any codeMatch) <;> simp [h2]

lemma convertRow_errors (now index : Nat) (row : CSVRow) :
    (convertRow now index row).validation_errors = rowErrors row := rfl

lemma convertRow_status (now index : Nat) (row : CSVRow) :
    (convertRow now index row).validation_status = rowStatus (rowErrors row) := rfl

lemma convertRow_latitude (now index : Nat) (row : CSVRow) :
    (convertRow now index row).latitude =
      (coordResult row.shopLocationCoordinates).2.1 := rfl

lemma convertRow_longitude (now index : Nat) (row : CSVRow) :
    (convertRow now index row).longitude =
      (coordResult row.shopLocationCoordinates).2.2 := rfl

/-!
### Claim C2 — the classification rule
-/

/-- C2: for every row, the converter's classification equals the spec's rule —
`invalid` iff some accumulated error text contains "required", "missing" or
"invalid coordinate" as a case-insensitive substring, else `warning` iff the
error list is non-empty, else `valid`; and the error list is empty iff the
classification is `valid`. -/
theorem claim2_classification_rule (now index : Nat) (row : CSVRow) :
    (convertRow now index row).validation_status =
      specClassification (convertRow now index row).validation_errors ∧
    ((convertRow now index row).validation_errors = [] ↔
      (convertRow now index row).validation_status = ValidationStatus.valid) := by
  rw [convertRow_status, convertRow_errors]
  have hany : (rowErrors row).any specMatch = (rowErrors row).any codeMatch :=
    any_congr_on _ _ _ (fun e he => errorLits_spec_eq_code e (mem_rowErrors row e he))
  exact ⟨rowStatus_eq_specClassification _ hany, rowStatus_valid_iff _⟩

/-- C2 witness: the rule evaluated on a concrete row with an out-of-range
coordinate error. -/
theorem claim2_witness :
    (convertRow 0 0 ⟨"A1".toList, "Store One".toList, none, [], "Point".toList,
        "[57.5,95]".toList⟩).validation_status =
      specClassification (convertRow 0 0 ⟨"A1".toList, "Store One".toList, none, [],
        "Point".toList, "[57.5,95]".toList⟩).validation_errors :=
  (claim2_classification_rule 0 0 ⟨"A1".toList, "Store One".toList, none, [],
    "Point".toList, "[57.5,95]".toList⟩).1

/-!
### Claim C3 — classification of particular rows

The claim's middle part fails on the code: a row with valid required fields and
an out-of-range latitude gets the `'Coordinates out of valid range'` error,
which matches none of the `invalid` patterns, so the row classifies `warning`,
not `invalid`.
-/

/-- C3 counterexample: the row `(id "A1", name "Store One", coordinates
`[57.5,95]`)` — valid required fields, latitude 95 — classifies `warning`, not
`invalid` as the claim states. -/
theorem claim3_counterexample :
    (convertRow 0 0 ⟨"A1".toList, "Store One".toList, none, "[]".toList, "Point".toList,
        "[57.5,95]".toList⟩).validation_status = ValidationStatus.warning ∧
    ¬(convertRow 0 0 ⟨"A1".toList, "Store One".toList, none, "[]".toList, "Point".toList,
        "[57.5,95]".toList⟩).validation_status = ValidationStatus.invalid := by
  constructor
  · decide
  · decide

/-- C3 (amended): a row whose `id` is missing, empty or whitespace-only always
classifies `invalid`; a row with non-blank required fields whose coordinates
parse to two finite numbers with `|latitude| > 90` or `|longitude| > 180`
classifies `warning` (not `invalid` as originally claimed); a row with
non-blank required fields, in-range finite coordinates and an empty grouping
cell classifies `valid`. -/
theorem claim3_row_classifications :
    (∀ now index (row : CSVRow), (trimChars row.id).isEmpty = true →
      (convertRow now index row).validation_status = ValidationStatus.invalid) ∧
    (∀ now index (row : CSVRow) (a b : JsonVal) (lat lon : Rat),
      (trimChars row.id).isEmpty = false → (trimChars row.shop_name).isEmpty = false →
      row.shopLocationCoordinates.isEmpty = false →
      jsonParse row.shopLocationCoordinates =
        some (JsonVal.arr (.cons a (.cons b .nil))) →
      jsParseFloatVal a = JsNum.fin lon → jsParseFloatVal b = JsNum.fin lat →
      ((90 : Rat) < ratAbs lat ∨ (180 : Rat) < ratAbs lon) →
      (convertRow now index row).validation_status = ValidationStatus.warning) ∧
    (∀ now index (row : CSVRow) (a b : JsonVal) (lat lon : Rat),
      (trimChars row.id).isEmpty = false → (trimChars row.shop_name).isEmpty = false →
      row.shopLocationCoordinates.isEmpty = false →
      jsonParse row.shopLocationCoordinates =
        some (JsonVal.arr (.cons a (.cons b .nil))) →
      jsParseFloatVal a = JsNum.fin lon → jsParseFloatVal b = JsNum.fin lat →
      ratAbs lat ≤ 90 → ratAbs lon ≤ 180 → row.shop_malls = [] →
      (convertRow now index row).validation_status = ValidationStatus.valid) := by
  refine ⟨?_, ?_, ?_⟩
  · intro now index row hid
    rw [convertRow_status]
    have hidmem : idRequiredMsg ∈ rowErrors row := by
      unfold rowErrors
      refine List.mem_append.mpr (Or.inr ?_)
      simp [hid]
    have hne : rowErrors row ≠ [] := List.ne_nil_of_mem hidmem
    have hany : (rowErrors row).any codeMatch = true :=
      List.any_eq_true.mpr ⟨idRequiredMsg, hidmem, by decide⟩
    unfold rowStatus
    rw [if_pos (by exact List.length_pos.mpr hne), if_pos hany]
  · intro now index row a b lat lon hid hname hcell hp ha hb hrange
    rw [convertRow_status]
    have hstep : coordResult row.shopLocationCoordinates =
        ([outOfRangeMsg], jsParseFloatVal b, jsParseFloatVal a) := by
      rw [coordResult_arr2 hcell hp, ha, hb]
      have h1 : (JsNum.fin lon).isNaN = false := rfl
      have h2 : (JsNum.fin lat).isNaN = false := rfl
      have h3 : ((JsNum.fin lat).absGt 90 || (JsNum.fin lon).absGt 180) = true := by
        rcases hrange with h | h
        · have : (JsNum.fin lat).absGt 90 = true := by
            unfold JsNum.absGt; exact decide_eq_true h
          simp [this]
        · have : (JsNum.fin lon).absGt 180 = true := by
            unfold JsNum.absGt; exact decide_eq_true h
          simp [this]
      simp [h1, h2, h3]
    have herrs : rowErrors row = [outOfRangeMsg] := by
      unfold rowErrors
      rw [hstep]
      rw [isEmpty_eq_false_of_trim hname, isEmpty_eq_false_of_trim hid, hname, hid]
      simp
    rw [herrs]
    decide
  · intro now index row a b lat lon hid hname hcell hp ha hb hlat hlon _
    rw [convertRow_status]
    have hstep : coordResult row.shopLocationCoordinates =
        ([], jsParseFloatVal b, jsParseFloatVal a) := by
      rw [coordResult_arr2 hcell hp, ha, hb]
      have h3 : (JsNum.fin lat).absGt 90 = false := by
        unfold JsNum.absGt
        exact decide_eq_false (not_lt.mpr hlat)
      have h4 : (JsNum.fin lon).absGt 180 = false := by
        unfold JsNum.absGt
        exact decide_eq_false (not_lt.mpr hlon)
      simp [h3, h4]
      exact ⟨rfl, rfl⟩
    have herrs : rowErrors row = [] := by
      unfold rowErrors
      rw [hstep]
      rw [isEmpty_eq_false_of_trim hname, isEmpty_eq_false_of_trim hid, hname, hid]
      simp
    rw [herrs]
    decide

/-- C3 witness: the three amended parts evaluated at concrete rows — a missing
id is `invalid`, latitude 95 is `warning`, and an in-range row with empty
grouping is `valid`. -/
theorem claim3_witness :
    (convertRow 0 0 ⟨" ".toList, "S".toList, none, [], [], "[1,2]".toList⟩).validation_status =
      ValidationStatus.invalid ∧
    (convertRow 0 0 ⟨"A1".toList, "Store One".toList, none, "[]".toList, "Point".toList,
        "[57.5,95]".toList⟩).validation_status = ValidationStatus.warning ∧
    (convertRow 0 0 ⟨"A1".toList, "Store One".toList, none, [], "Point".toList,
        "[57.5,-20.1]".toList⟩).validation_status = ValidationStatus.valid :=
  ⟨claim3_row_classifications.1 0 0 ⟨" ".toList, "S".toList, none, [], [], "[1,2]".toList⟩
      (by decide),
    claim3_row_classifications.2.1 0 0
      ⟨"A1".toList, "Store One".toList, none, "[]".toList, "Point".toList, "[57.5,95]".toList⟩
      (JsonVal.num (Rat.divInt 115 2)) (JsonVal.num 95) 95 (Rat.divInt 115 2)
      (by decide) (by decide) (by decide) rfl rfl rfl (by left; decide),
    claim3_row_classifications.2.2 0 0
      ⟨"A1".toList, "Store One".toList, none, [], "Point".toList, "[57.5,-20.1]".toList⟩
      (JsonVal.num (Rat.divInt 115 2)) (JsonVal.num (Rat.divInt (-201) 10))
      (Rat.divInt (-201) 10) (Rat.divInt 115 2)
      (by decide) (by decide) (by decide) rfl rfl rfl (by decide) (by decide) rfl⟩

/-!
### Claim C6 — coordinate error handling

The claim fails on the code: in the out-of-range branch the record keeps the
parsed (out-of-range) latitude/longitude, and in the non-numeric branch it
keeps the `NaN` `parseFloat` results — the fields are reset to 0 only for
parse-failure and non-array/wrong-arity cells.
-/

/-- C6 counterexample: for the coordinate cell `[57.5,95]` the converter
appends the range error but the produced record's latitude is 95, not 0. -/
theorem claim6_counterexample :
    (convertRow 0 0 ⟨"A1".toList, "S".toList, none, [], [],
        "[57.5,95]".toList⟩).validation_errors = [outOfRangeMsg] ∧
    ¬(convertRow 0 0 ⟨"A1".toList, "S".toList, none, [], [],
        "[57.5,95]".toList⟩).latitude = JsNum.fin 0 := by
  constructor
  · decide
  · decide

/-- C6 (amended): each bad-coordinate condition appends its own distinct error
message; the record's latitude/longitude stay 0 for a cell that fails to parse
as JSON and for a parse that is not a two-element array, while for a
two-element array they always carry the `parseFloat` results — `NaN` when an
element is non-numeric, and the parsed out-of-range values when
`|latitude| > 90` or `|longitude| > 180`. -/
theorem claim6_coordinate_errors :
    (∀ now index (row : CSVRow), row.shopLocationCoordinates.isEmpty = false →
      jsonParse row.shopLocationCoordinates = none →
      invalidFormatMsg ∈ (convertRow now index row).validation_errors ∧
      (convertRow now index row).latitude = JsNum.fin 0 ∧
      (convertRow now index row).longitude = JsNum.fin 0) ∧
    (∀ now index (row : CSVRow) (v : JsonVal), row.shopLocationCoordinates.isEmpty = false →
      jsonParse row.shopLocationCoordinates = some v →
      (∀ a b, v ≠ JsonVal.arr (.cons a (.cons b .nil))) →
      arrayShapeMsg ∈ (convertRow now index row).validation_errors ∧
      (convertRow now index row).latitude = JsNum.fin 0 ∧
      (convertRow now index row).longitude = JsNum.fin 0) ∧
    (∀ now index (row : CSVRow) (a b : JsonVal), row.shopLocationCoordinates.isEmpty = false →
      jsonParse row.shopLocationCoordinates = some (JsonVal.arr (.cons a (.cons b .nil))) →
      ((jsParseFloatVal a).isNaN || (jsParseFloatVal b).isNaN) = true →
      invalidValuesMsg ∈ (convertRow now index row).validation_errors ∧
      (convertRow now index row).latitude = jsParseFloatVal b ∧
      (convertRow now index row).longitude = jsParseFloatVal a) ∧
    (∀ now index (row : CSVRow) (a b : JsonVal), row.shopLocationCoordinates.isEmpty = false →
      jsonParse row.shopLocationCoordinates = some (JsonVal.arr (.cons a (.cons b .nil))) →
      ((jsParseFloatVal a).isNaN || (jsParseFloatVal b).isNaN) = false →
      ((jsParseFloatVal b).absGt 90 || (jsParseFloatVal a).absGt 180) = true →
      outOfRangeMsg ∈ (convertRow now index row).validation_errors ∧
      (convertRow now index row).latitude = jsParseFloatVal b ∧
      (convertRow now index row).longitude = jsParseFloatVal a) ∧
    ([invalidFormatMsg, arrayShapeMsg, invalidValuesMsg, outOfRangeMsg,
        missingCoordsMsg].Pairwise (· ≠ ·)) := by
  have coordMem : ∀ (row : CSVRow) e, (coordResult row.shopLocationCoordinates).1 = [e] →
      e ∈ rowErrors row := by
    intro row e h
    unfold rowErrors
    refine List.mem_append.mpr (Or.inl (List.mem_append.mpr (Or.inl ?_)))
    rw [h]
    simp
  refine ⟨?_, ?_, ?_, ?_, by decide⟩
  · intro now index row hcell hp
    have h := coordResult_parse_fail hcell hp
    rw [convertRow_errors, convertRow_latitude, convertRow_longitude, h]
    exact ⟨coordMem row _ (by rw [h]), rfl, rfl⟩
  · intro now index row v hcell hp hv
    have h := coordResult_not_arr2 hcell hp hv
    rw [convertRow_errors, convertRow_latitude, convertRow_longitude, h]
    exact ⟨coordMem row _ (by rw [h]), rfl, rfl⟩
  · intro now index row a b hcell hp hnan
    have h : coordResult row.shopLocationCoordinates =
        ([invalidValuesMsg], jsParseFloatVal b, jsParseFloatVal a) := by
      rw [coordResult_arr2 hcell hp, if_pos hnan]
    rw [convertRow_errors, convertRow_latitude, convertRow_longitude, h]
    exact ⟨coordMem row _ (by rw [h]), rfl, rfl⟩
  · intro now index row a b hcell hp hnan hrange
    have h : coordResult row.shopLocationCoordinates =
        ([outOfRangeMsg], jsParseFloatVal b, jsParseFloatVal a) := by
      rw [coordResult_arr2 hcell hp, if_neg (by rw [hnan]; exact Bool.false_ne_true),
        if_pos hrange]
    rw [convertRow_errors, convertRow_latitude, convertRow_longitude, h]
    exact ⟨coordMem row _ (by rw [h]), rfl, rfl⟩

/-- C6 witness: the four conditions at concrete rows — unparseable JSON, a
non-array cell, non-numeric elements, and latitude 95. -/
theorem claim6_witness :
    invalidFormatMsg ∈ (convertRow 0 0 ⟨"A".toList, "S".toList, none, [], [],
      "abc".toList⟩).validation_errors ∧
    arrayShapeMsg ∈ (convertRow 0 0 ⟨"A".toList, "S".toList, none, [], [],
      "[1,2,3]".toList⟩).validation_errors ∧
    ((convertRow 0 0 ⟨"A".toList, "S".toList, none, [], [],
      "[\"x\",\"y\"]".toList⟩).latitude = jsParseFloatVal (JsonVal.str ['y']) ∧
      invalidValuesMsg ∈ (convertRow 0 0 ⟨"A".toList, "S".toList, none, [], [],
        "[\"x\",\"y\"]".toList⟩).validation_errors) ∧
    (convertRow 0 0 ⟨"A".toList, "S".toList, none, [], [],
      "[57.5,95]".toList⟩).latitude = jsParseFloatVal (JsonVal.num 95) :=
  ⟨(claim6_coordinate_errors.1 0 0 ⟨"A".toList, "S".toList, none, [], [], "abc".toList⟩
      (by decide) rfl).1,
    (claim6_coordinate_errors.2.1 0 0 ⟨"A".toList, "S".toList, none, [], [], "[1,2,3]".toList⟩
      (JsonVal.arr (.cons (.num 1) (.cons (.num 2) (.cons (.num 3) .nil))))
      (by decide) rfl (by intro a b h; cases h)).1,
    ⟨(claim6_coordinate_errors.2.2.1 0 0
        ⟨"A".toList, "S".toList, none, [], [], "[\"x\",\"y\"]".toList⟩
        (JsonVal.str ['x']) (JsonVal.str ['y']) (by decide) rfl rfl).2.1,
      (claim6_coordinate_errors.2.2.1 0 0
        ⟨"A".toList, "S".toList, none, [], [], "[\"x\",\"y\"]".toList⟩
        (JsonVal.str ['x']) (JsonVal.str ['y']) (by decide) rfl rfl).1⟩,
    (claim6_coordinate_errors.2.2.2.1 0 0
      ⟨"A".toList, "S".toList, none, [], [], "[57.5,95]".toList⟩
      (JsonVal.num (Rat.divInt 115 2)) (JsonVal.num 95) (by decide) rfl rfl rfl).2.1⟩

/-!
### Claim C7 — converter determinism and order preservation

The claim fails on the code: a row with a falsy (empty) `id` gets the fallback
id `imported-${Date.now()}-${index}`, so two invocations at different times
produce different `id` fields.  Determinism holds whenever every row has a
non-empty `id`, and the output always preserves the input row order one-to-one.
-/

/-- C7 counterexample: on a row with an empty `id`, the converter invoked at
`Date.now() = 1` and at `Date.now() = 2` produces different record lists. -/
theorem claim7_counterexample :
    ¬convertCSVToDirectusRecords 1 [⟨[], "S".toList, none, [], [], "[1,2]".toList⟩] =
      convertCSVToDirectusRecords 2 [⟨[], "S".toList, none, [], [], "[1,2]".toList⟩] := by
  decide

lemma convertRow_now_invariant (now1 now2 index : Nat) (row : CSVRow)
    (h : row.id.isEmpty = false) :
    convertRow now1 index row = convertRow now2 index row := by
  unfold convertRow
  rw [h]
  simp

lemma convertFrom_length (now : Nat) : ∀ (i : Nat) (rows : List CSVRow),
    (convertFrom now i rows).length = rows.length := by
  intro i rows
  induction rows generalizing i with
  | nil => rfl
  | cons r rest ih => simp [convertFrom, ih]

lemma convertFrom_get (now : Nat) : ∀ (rows : List CSVRow) (i j : Nat)
    (h : j < rows.length) (h2 : j < (convertFrom now i rows).length),
    (convertFrom now i rows).get ⟨j, h2⟩ = convertRow now (i + j) (rows.get ⟨j, h⟩) := by
  intro rows
  induction rows with
  | nil => intro i j h h2; cases h
  | cons r rest ih =>
    intro i j h h2
    cases j with
    | zero => simp [convertFrom]
    | succ j =>
      have h3 : j < rest.length := Nat.lt_of_succ_lt_succ h
      have h4 : j < (convertFrom now (i + 1) rest).length := by
        rw [convertFrom_length]; exact h3
      show (convertFrom now (i + 1) rest).get ⟨j, h4⟩ = _
      rw [ih (i + 1) j h3 h4]
      congr 1
      omega

/-- C7 (amended): the converter is deterministic in the parsed rows except for
the fallback id — two invocations at different `Date.now()` values agree
whenever every row has a non-empty `id` cell (otherwise the fallback id embeds
the invocation time); and the output always has one record per input row, in
input order, the `i`-th record converted from the `i`-th row. -/
theorem claim7_deterministic_order :
    (∀ now1 now2 (rows : List CSVRow), (∀ row ∈ rows, row.id.isEmpty = false) →
      convertCSVToDirectusRecords now1 rows = convertCSVToDirectusRecords now2 rows) ∧
    (∀ now (rows : List CSVRow),
      (convertCSVToDirectusRecords now rows).length = rows.length) ∧
    (∀ now (rows : List CSVRow) (j : Nat) (h : j < rows.length)
      (h2 : j < (convertCSVToDirectusRecords now rows).length),
      (convertCSVToDirectusRecords now rows).get ⟨j, h2⟩ =
        convertRow now j (rows.get ⟨j, h⟩)) := by
  refine ⟨?_, ?_, ?_⟩
  · intro now1 now2 rows hids
    unfold convertCSVToDirectusRecords
    generalize 0 = i
    induction rows generalizing i with
    | nil => rfl
    | cons r rest ih =>
      unfold convertFrom
      rw [convertRow_now_invariant now1 now2 i r (hids r (by simp)),
        ih (fun row hrow => hids row (by simp [hrow])) (i + 1)]
  · intro now rows
    exact convertFrom_length now 0 rows
  · intro now rows j h h2
    have h3 := convertFrom_get now rows 0 j h h2
    rw [Nat.zero_add] at h3
    exact h3

/-- C7 witness: two invocations at different times agree on a row with a
non-empty id. -/
theorem claim7_witness :
    convertCSVToDirectusRecords 1 [⟨"A1".toList, "S".toList, none, [], [], "[1,2]".toList⟩] =
      convertCSVToDirectusRecords 2 [⟨"A1".toList, "S".toList, none, [], [], "[1,2]".toList⟩] :=
  claim7_deterministic_order.1 1 2
    [⟨"A1".toList, "S".toList, none, [], [], "[1,2]".toList⟩] (by decide)

/-!
### Batch engine lemmas (for C4, C5)
-/

lemma updateDirectus_record (record : DirectusShopRecord)
    (respond : UpdatePayload → FetchResult) :
    (updateDirectusShopRecord record respond).record = record := by
  unfold updateDirectusShopRecord
  rcases respond (buildUpdateData record) with msg | ⟨s, b⟩
  · rfl
  · by_cases h : httpOk s = true
    · simp only [h, if_true]
      rcases b with _ | v
      · rfl
      · rcases hb : (!jsTruthy v || !jsDataTruthy v) <;> simp [hb]
    · rw [Bool.not_eq_true] at h
      simp [h]

lemma updateDirectus_exn (record : DirectusShopRecord)
    (respond : UpdatePayload → FetchResult) (msg : List Char)
    (h : respond (buildUpdateData record) = FetchResult.exn msg) :
    updateDirectusShopRecord record respond = ⟨record.id, .error, msg, record⟩ := by
  unfold updateDirectusShopRecord
  rw [h]

lemma updateDirectus_not_ok (record : DirectusShopRecord)
    (respond : UpdatePayload → FetchResult) (status : Nat) (body : Option JsonVal)
    (h : respond (buildUpdateData record) = FetchResult.resp status body)
    (hok : httpOk status = false) :
    updateDirectusShopRecord record respond =
      ⟨record.id, .error, errorMessageOf status body, record⟩ := by
  unfold updateDirectusShopRecord
  rw [h]
  simp [hok]

lemma batchRunFrom_fst_length (respond : Nat → UpdatePayload → FetchResult) (total : Nat) :
    ∀ (i : Nat) (l : List DirectusShopRecord),
      (batchRunFrom respond total i l).1.length = l.length := by
  intro i l
  induction l generalizing i with
  | nil => rfl
  | cons r rest ih => simp [batchRunFrom, ih]

lemma batchRunFrom_snd_length (respond : Nat → UpdatePayload → FetchResult) (total : Nat) :
    ∀ (i : Nat) (l : List DirectusShopRecord),
      (batchRunFrom respond total i l).2.length = l.length := by
  intro i l
  induction l generalizing i with
  | nil => rfl
  | cons r rest ih => simp [batchRunFrom, ih]

lemma batchRunFrom_fst_get (respond : Nat → UpdatePayload → FetchResult) (total : Nat) :
    ∀ (l : List DirectusShopRecord) (i j : Nat) (h : j < l.length)
      (h2 : j < (batchRunFrom respond total i l).1.length),
      (batchRunFrom respond total i l).1.get ⟨j, h2⟩ =
        updateDirectusShopRecord (l.get ⟨j, h⟩) (respond (i + j)) := by
  intro l
  induction l with
  | nil => intro i j h h2; cases h
  | cons r rest ih =>
    intro i j h h2
    cases j with
    | zero => simp [batchRunFrom]
    | succ j =>
      have h3 : j < rest.length := Nat.lt_of_succ_lt_succ h
      have h4 : j < (batchRunFrom respond total (i + 1) rest).1.length := by
        rw [batchRunFrom_fst_length]; exact h3
      show (batchRunFrom respond total (i + 1) rest).1.get ⟨j, h4⟩ = _
      rw [ih (i + 1) j h3 h4]
      have harith : i + 1 + j = i + (j + 1) := by omega
      rw [harith]
      rfl

lemma batchRunFrom_snd_get (respond : Nat → UpdatePayload → FetchResult) (total : Nat) :
    ∀ (l : List DirectusShopRecord) (i j : Nat) (h : j < l.length)
      (h2 : j < (batchRunFrom respond total i l).2.length)
      (h3 : j < (batchRunFrom respond total i l).1.length),
      (batchRunFrom respond total i l).2.get ⟨j, h2⟩ =
        (ratMul (ratDiv ((i + j + 1 : Nat) : Rat) ((total : Nat) : Rat)) 100,
          (batchRunFrom respond total i l).1.get ⟨j, h3⟩) := by
  intro l
  induction l with
  | nil => intro i j h h2 h3; cases h
  | cons r rest ih =>
    intro i j h h2 h3
    cases j with
    | zero => simp [batchRunFrom]
    | succ j =>
      have hr : j < rest.length := Nat.lt_of_succ_lt_succ h
      have hr2 : j < (batchRunFrom respond total (i + 1) rest).2.length := by
        rw [batchRunFrom_snd_length]; exact hr
      have hr3 : j < (batchRunFrom respond total (i + 1) rest).1.length := by
        rw [batchRunFrom_fst_length]; exact hr
      show (batchRunFrom respond total (i + 1) rest).2.get ⟨j, hr2⟩ = _
      rw [ih (i + 1) j hr hr2 hr3]
      have harith : i + 1 + j + 1 = i + (j + 1) + 1 := by omega
      rw [harith]
      rfl

/-!
### Claim C4 — the batch ledger
-/

/-- C4: the batch engine submits exactly the records whose classification is
not `invalid`, in input order — the ledger has one outcome per eligible record,
the `j`-th outcome being the submission of the `j`-th eligible record; every
ledger entry's record is non-`invalid`; and an individual failure (transport
exception or non-2xx rejection) becomes an `error` outcome at its position
while the ledger keeps its full length. -/
theorem claim4_batch_ledger (records : List DirectusShopRecord)
    (respond : Nat → UpdatePayload → FetchResult) :
    (batchUpdateDirectusRecords records respond).1.length = (validRecords records).length ∧
    (∀ (j : Nat) (h : j < (batchUpdateDirectusRecords records respond).1.length)
      (h2 : j < (validRecords records).length),
      (batchUpdateDirectusRecords records respond).1.get ⟨j, h⟩ =
        updateDirectusShopRecord ((validRecords records).get ⟨j, h2⟩) (respond j)) ∧
    (∀ out ∈ (batchUpdateDirectusRecords records respond).1,
      out.record.validation_status ≠ ValidationStatus.invalid) ∧
    (∀ (j : Nat) (h : j < (batchUpdateDirectusRecords records respond).1.length)
      (msg : List Char),
      respond j (buildUpdateData
          (((batchUpdateDirectusRecords records respond).1.get ⟨j, h⟩).record)) =
        FetchResult.exn msg →
      ((batchUpdateDirectusRecords records respond).1.get ⟨j, h⟩).status = SyncStatus.error ∧
      ((batchUpdateDirectusRecords records respond).1.get ⟨j, h⟩).message = msg) ∧
    (∀ (j : Nat) (h : j < (batchUpdateDirectusRecords records respond).1.length)
      (status : Nat) (body : Option JsonVal),
      respond j (buildUpdateData
          (((batchUpdateDirectusRecords records respond).1.get ⟨j, h⟩).record)) =
        FetchResult.resp status body →
      httpOk status = false →
      ((batchUpdateDirectusRecords records respond).1.get ⟨j, h⟩).status =
        SyncStatus.error) := by
  have hlen : (batchUpdateDirectusRecords records respond).1.length =
      (validRecords records).length :=
    batchRunFrom_fst_length respond (validRecords records).length 0 (validRecords records)
  have hget : ∀ (j : Nat) (h : j < (batchUpdateDirectusRecords records respond).1.length)
      (h2 : j < (validRecords records).length),
      (batchUpdateDirectusRecords records respond).1.get ⟨j, h⟩ =
        updateDirectusShopRecord ((validRecords records).get ⟨j, h2⟩) (respond j) := by
    intro j h h2
    have := batchRunFrom_fst_get respond (validRecords records).length
      (validRecords records) 0 j h2 h
    rw [Nat.zero_add] at this
    exact this
  refine ⟨hlen, hget, ?_, ?_, ?_⟩
  · intro out hout
    obtain ⟨⟨j, hj⟩, rfl⟩ := List.mem_iff_get.mp hout
    have h2 : j < (validRecords records).length := by rw [← hlen]; exact hj
    rw [hget j hj h2, updateDirectus_record]
    have hmem : (validRecords records).get ⟨j, h2⟩ ∈ validRecords records :=
      List.get_mem _ _ _
    have := (List.mem_filter.mp hmem).2
    exact of_decide_eq_true this
  · intro j h msg hexn
    have h2 : j < (validRecords records).length := by rw [← hlen]; exact h
    rw [hget j h h2] at hexn ⊢
    rw [updateDirectus_record] at hexn
    rw [updateDirectus_exn _ _ msg hexn]
    exact ⟨rfl, rfl⟩
  · intro j h status body hresp hok
    have h2 : j < (validRecords records).length := by rw [← hlen]; exact h
    rw [hget j h h2] at hresp ⊢
    rw [updateDirectus_record] at hresp
    rw [updateDirectus_not_ok _ _ status body hresp hok]

/-- C4 witness: a two-record batch (one `valid`, one `invalid`) with a
transport exception yields a one-entry ledger whose entry is an error. -/
theorem claim4_witness :
    (batchUpdateDirectusRecords
        [⟨"A".toList, "S".toList, none, [], [], [], .fin 1, .fin 2, [], .valid, []⟩,
          ⟨"B".toList, "T".toList, none, [], [], [], .fin 0, .fin 0, [], .invalid, []⟩]
        (fun _ _ => FetchResult.exn "boom".toList)).1.length =
      (validRecords
        [⟨"A".toList, "S".toList, none, [], [], [], .fin 1, .fin 2, [], .valid, []⟩,
          ⟨"B".toList, "T".toList, none, [], [], [], .fin 0, .fin 0, [], .invalid, []⟩]).length ∧
    ((batchUpdateDirectusRecords
        [⟨"A".toList, "S".toList, none, [], [], [], .fin 1, .fin 2, [], .valid, []⟩,
          ⟨"B".toList, "T".toList, none, [], [], [], .fin 0, .fin 0, [], .invalid, []⟩]
        (fun _ _ => FetchResult.exn "boom".toList)).1.get ⟨0, by decide⟩).status =
      SyncStatus.error :=
  ⟨(claim4_batch_ledger _ _).1,
    ((claim4_batch_ledger
        [⟨"A".toList, "S".toList, none, [], [], [], .fin 1, .fin 2, [], .valid, []⟩,
          ⟨"B".toList, "T".toList, none, [], [], [], .fin 0, .fin 0, [], .invalid, []⟩]
        (fun _ _ => FetchResult.exn "boom".toList)).2.2.2.1 0 (by decide)
      "boom".toList rfl).1⟩

/-!
### Claim C5 — progress reporting

The claim fails on the code: `batchUpdateDirectusRecords` reports
`((i + 1) / total) * 100` — a percentage — so for a batch of N eligible
records the final reported value is `100`, not `1.0`, and the value at index
`i` is `100 * (i + 1) / N`, not `(i + 1) / N`.  The once-per-record pairing
and strict monotonicity do hold.
-/

/-- C5 counterexample: for a single eligible record the reported progress
sequence is `[100]`, not `[1]` as the claimed `fractionComplete = (i+1)/N`
(with final value 1.0) would require. -/
theorem claim5_counterexample :
    ((batchUpdateDirectusRecords
        [⟨"A".toList, "S".toList, none, [], [], [], .fin 1, .fin 2, [], .valid, []⟩]
        (fun _ _ => FetchResult.exn "x".toList)).2.map Prod.fst = [100]) ∧
    ¬((batchUpdateDirectusRecords
        [⟨"A".toList, "S".toList, none, [], [], [], .fin 1, .fin 2, [], .valid, []⟩]
        (fun _ _ => FetchResult.exn "x".toList)).2.map Prod.fst = [1]) := by
  constructor
  · decide
  · decide

/-- C5 (amended): the progress callback fires exactly once per completed
record, carrying the pair `(100 * (j + 1) / N, outcome_j)` — the percentage,
not the fraction; the reported values are strictly increasing, and the final
(N-th) value is `100`. -/
theorem claim5_progress_percentages (records : List DirectusShopRecord)
    (respond : Nat → UpdatePayload → FetchResult) :
    (batchUpdateDirectusRecords records respond).2.length =
      (validRecords records).length ∧
    (∀ (j : Nat) (h : j < (batchUpdateDirectusRecords records respond).2.length)
      (h2 : j < (batchUpdateDirectusRecords records respond).1.length),
      (batchUpdateDirectusRecords records respond).2.get ⟨j, h⟩ =
        (ratMul (ratDiv ((j + 1 : Nat) : Rat) (((validRecords records).length : Nat) : Rat))
            100,
          (batchUpdateDirectusRecords records respond).1.get ⟨j, h2⟩)) ∧
    (∀ (j k : Nat) (hj : j < (batchUpdateDirectusRecords records respond).2.length)
      (hk : k < (batchUpdateDirectusRecords records respond).2.length),
      j < k →
      ((batchUpdateDirectusRecords records respond).2.get ⟨j, hj⟩).1 <
        ((batchUpdateDirectusRecords records respond).2.get ⟨k, hk⟩).1) ∧
    (∀ hne : (batchUpdateDirectusRecords records respond).2 ≠ [],
      ((batchUpdateDirectusRecords records respond).2.getLast hne).1 = 100) := by
  have hlen2 : (batchUpdateDirectusRecords records respond).2.length =
      (validRecords records).length :=
    batchRunFrom_snd_length respond (validRecords records).length 0 (validRecords records)
  have hlen1 : (batchUpdateDirectusRecords records respond).1.length =
      (validRecords records).length :=
    batchRunFrom_fst_length respond (validRecords records).length 0 (validRecords records)
  have hget : ∀ (j : Nat) (h : j < (batchUpdateDirectusRecords records respond).2.length)
      (h2 : j < (batchUpdateDirectusRecords records respond).1.length),
      (batchUpdateDirectusRecords records respond).2.get ⟨j, h⟩ =
        (ratMul (ratDiv ((j + 1 : Nat) : Rat) (((validRecords records).length : Nat) : Rat))
            100,
          (batchUpdateDirectusRecords records respond).1.get ⟨j, h2⟩) := by
    intro j h h2
    have := batchRunFrom_snd_get respond (validRecords records).length
      (validRecords records) 0 j (by rw [← hlen2]; exact h) h h2
    rw [Nat.zero_add] at this
    exact this
  have hval : ∀ (j : Nat) (h : j < (batchUpdateDirectusRecords records respond).2.length),
      ((batchUpdateDirectusRecords records respond).2.get ⟨j, h⟩).1 =
        ((j + 1 : Nat) : Rat) / (((validRecords records).length : Nat) : Rat) * 100 := by
    intro j h
    rw [hget j h (by rw [hlen1, ← hlen2]; exact h)]
    rw [ratMul_eq, ratDiv_eq]
  refine ⟨hlen2, hget, ?_, ?_⟩
  · intro j k hj hk hlt
    rw [hval j hj, hval k hk]
    have hkN : k < (validRecords records).length := by rw [← hlen2]; exact hk
    have hN : (0 : Rat) < (((validRecords records).length : Nat) : Rat) := by
      have h0 : 0 < (validRecords records).length := by omega
      exact_mod_cast h0
    have hlt2 : ((j + 1 : Nat) : Rat) < ((k + 1 : Nat) : Rat) := by
      exact_mod_cast Nat.succ_lt_succ hlt
    exact (mul_lt_mul_right (by norm_num)).mpr ((div_lt_div_right hN).mpr hlt2)
  · intro hne
    have hpos : 0 < (batchUpdateDirectusRecords records respond).2.length :=
      List.length_pos.mpr hne
    rw [List.getLast_eq_get]
    rw [hval _ (by omega)]
    have hNpos : 0 < (validRecords records).length := by rw [← hlen2]; exact hpos
    have hstep : (batchUpdateDirectusRecords records respond).2.length - 1 + 1 =
        (validRecords records).length := by omega
    rw [hstep, div_self (Nat.cast_ne_zero.mpr (Nat.pos_iff_ne_zero.mp hNpos)), one_mul]


/-- C5 witness: a two-record batch reports `[50, 100]`, with the strict
increase and final value 100 given by the amended theorem. -/
theorem claim5_witness :
    ((batchUpdateDirectusRecords
        [⟨"A".toList, "S".toList, none, [], [], [], .fin 1, .fin 2, [], .valid, []⟩,
          ⟨"B".toList, "T".toList, none, [], [], [], .fin 3, .fin 4, [], .warning, []⟩]
        (fun _ _ => FetchResult.exn "x".toList)).2.get ⟨0, by decide⟩).1 <
      ((batchUpdateDirectusRecords
        [⟨"A".toList, "S".toList, none, [], [], [], .fin 1, .fin 2, [], .valid, []⟩,
          ⟨"B".toList, "T".toList, none, [], [], [], .fin 3, .fin 4, [], .warning, []⟩]
        (fun _ _ => FetchResult.exn "x".toList)).2.get ⟨1, by decide⟩).1 ∧
    ((batchUpdateDirectusRecords
        [⟨"A".toList, "S".toList, none, [], [], [], .fin 1, .fin 2, [], .valid, []⟩,
          ⟨"B".toList, "T".toList, none, [], [], [], .fin 3, .fin 4, [], .warning, []⟩]
        (fun _ _ => FetchResult.exn "x".toList)).2.getLast (by decide)).1 = 100 :=
  ⟨(claim5_progress_percentages _ _).2.2.1 0 1 (by decide) (by decide) (by decide),
    (claim5_progress_percentages _ _).2.2.2 (by decide)⟩

/-!
### Claim C9 — quoting round-trip

The claim fails on the code: `parseCSVLine` trims every field after unquoting,
so a field value with leading or trailing whitespace is not reconstructed
exactly even though the exporter quotes it correctly.  The round-trip is exact
for trim-invariant field values (commas and embedded quotes included).
-/

/-- C9 counterexample: the single-field row `"a, "` (a value containing a
comma and a trailing space) serializes to `"a, "` but parses back to `a,` —
the trailing space is lost to the parser's per-field trim. -/
theorem claim9_counterexample :
    ¬parseCSVLine (serializeRow ["a, ".toList]) = ["a, ".toList] := by
  decide

lemma parseLineAux_openQuote (L cur : List Char) :
    parseLineAux ('\"' :: L) cur false = parseLineAux L cur true := by
  simp only [parseLineAux]

lemma parseLineAux_esc : ∀ (c rest cur : List Char),
    parseLineAux (escQuotes c ++ '\"' :: rest) cur true =
      parseLineAux ('\"' :: rest) (cur ++ c) true := by
  intro c
  induction c with
  | nil => intro rest cur; simp [escQuotes]
  | cons x t ih =>
    intro rest cur
    by_cases hq : x = '\"'
    · subst hq
      have he : escQuotes ('\"' :: t) = '\"' :: '\"' :: escQuotes t := by
        simp [escQuotes]
      rw [he]
      show parseLineAux (escQuotes t ++ '\"' :: rest) (cur ++ ['\"']) true = _
      rw [ih rest (cur ++ ['\"']), List.append_assoc]
      rfl
    · by_cases hc : x = ','
      · subst hc
        have he : escQuotes (',' :: t) = ',' :: escQuotes t := by
          simp [escQuotes]
        rw [he]
        show parseLineAux (escQuotes t ++ '\"' :: rest) (cur ++ [',']) true = _
        rw [ih rest (cur ++ [',']), List.append_assoc]
        rfl
      · have he : escQuotes (x :: t) = x :: escQuotes t := by
          simp [escQuotes, hq]
        rw [he]
        have hstep : parseLineAux ((x :: escQuotes t) ++ '\"' :: rest) cur true =
            parseLineAux (escQuotes t ++ '\"' :: rest) (cur ++ [x]) true := by
          rw [List.cons_append]
          simp [parseLineAux, hq, hc]
        rw [hstep, ih rest (cur ++ [x]), List.append_assoc]
        rfl

/-- C9 (amended): for every non-empty row of field values each invariant under
trimming (in particular values containing commas or embedded quotes but no
leading/trailing whitespace), parsing the exporter's fully quoted serialization
reconstructs the original field values exactly; a value with leading or
trailing whitespace comes back trimmed instead. -/
theorem claim9_quoting_roundtrip (cells : List (List Char)) (hne : cells ≠ [])
    (htrim : ∀ c ∈ cells, trimChars c = c) :
    parseCSVLine (serializeRow cells) = cells := by
  induction cells with
  | nil => exact absurd rfl hne
  | cons c rest ih =>
    cases rest with
    | nil =>
      have hs : serializeRow [c] = '\"' :: (escQuotes c ++ '\"' :: []) := rfl
      show parseLineAux (serializeRow [c]) [] false = [c]
      rw [hs, parseLineAux_openQuote]
      rw [parseLineAux_esc c [] []]
      simp only [List.nil_append]
      show [trimChars c] = [c]
      rw [htrim c (by simp)]
    | cons c2 rest2 =>
      have hs : serializeRow (c :: c2 :: rest2) =
          '\"' :: (escQuotes c ++ '\"' :: ',' :: serializeRow (c2 :: rest2)) := by
        show serializeCell c ++ ',' :: serializeRow (c2 :: rest2) = _
        unfold serializeCell
        rw [List.cons_append, List.append_assoc]
        rfl
      show parseLineAux (serializeRow (c :: c2 :: rest2)) [] false = _
      rw [hs, parseLineAux_openQuote]
      rw [parseLineAux_esc c (',' :: serializeRow (c2 :: rest2)) []]
      simp only [List.nil_append]
      show trimChars c :: parseLineAux (serializeRow (c2 :: rest2)) [] false = c :: c2 :: rest2
      rw [htrim c (by simp)]
      congr 1
      exact ih (by simp) (fun x hx => htrim x (by simp [hx]))

/-- C9 witness: a field with an embedded quote and a comma round-trips
exactly. -/
theorem claim9_witness :
    parseCSVLine (serializeRow ["a,\"b".toList, "c".toList]) =
      ["a,\"b".toList, "c".toList] :=
  claim9_quoting_roundtrip ["a,\"b".toList, "c".toList] (by decide) (by decide)

/-!
### Parser lemmas (for C10)

The chain: `parseCSV` fails iff `splitLines (trimChars content)` has fewer
than two entries, iff the trimmed content has no newline, iff the content has
fewer than two non-blank lines.  `nbAux` is the left-to-right accumulator form
of `countNonBlankLines`.
-/

lemma splitLines_ne_nil : ∀ cs : List Char, splitLines cs ≠ [] := by
  intro cs
  cases cs with
  | nil => simp [splitLines]
  | cons c rest =>
    unfold splitLines
    rcases h : splitLines rest with _ | ⟨l, ls⟩
    · simp
    · by_cases hc : c = '\n' <;> simp [hc]

lemma splitLines_cons (c : Char) (rest l : List Char) (ls : List (List Char))
    (h : splitLines rest = l :: ls) :
    splitLines (c :: rest) = if c = '\n' then [] :: l :: ls else (c :: l) :: ls := by
  unfold splitLines
  rw [h]

lemma splitLines_length : ∀ cs : List Char, (splitLines cs).length = cs.count '\n' + 1 := by
  intro cs
  induction cs with
  | nil => rfl
  | cons c rest ih =>
    rcases h : splitLines rest with _ | ⟨l, ls⟩
    · exact absurd h (splitLines_ne_nil rest)
    · rw [splitLines_cons c rest l ls h]
      rw [h] at ih
      by_cases hc : c = '\n'
      · subst hc
        rw [if_pos rfl]
        simp only [List.length_cons, List.count_cons] at ih ⊢
        simp
        omega
      · rw [if_neg hc]
        have hbeq : (c == '\n') = false := beq_eq_false_iff_ne.mpr hc
        simp only [List.length_cons, List.count_cons, hbeq] at ih ⊢
        simp
        omega

lemma nbAux_splitLines : ∀ (cs : List Char) (b : Bool) (l : List Char)
    (ls : List (List Char)), splitLines cs = l :: ls →
    nbAux cs b = (if (b || nonBlankLine l) then 1 else 0) +
      (ls.filter nonBlankLine).length := by
  intro cs
  induction cs with
  | nil =>
    intro b l ls h
    have h2 : ([[]] : List (List Char)) = l :: ls := h
    injection h2 with h3 h4
    subst h3
    subst h4
    simp [nbAux, nonBlankLine]
  | cons c rest ih =>
    intro b l ls h
    rcases hr : splitLines rest with _ | ⟨l2, ls2⟩
    · exact absurd hr (splitLines_ne_nil rest)
    · rw [splitLines_cons c rest l2 ls2 hr] at h
      by_cases hc : c = '\n'
      · subst hc
        rw [if_pos rfl] at h
        injection h with h1 h2
        subst h1
        subst h2
        show (if b then 1 else 0) + nbAux rest false = _
        rw [ih false l2 ls2 hr]
        rw [Bool.false_or, show nonBlankLine ([] : List Char) = false from rfl,
          Bool.or_false, List.filter_cons]
        by_cases hb : nonBlankLine l2 = true
        · rw [if_pos hb, if_pos hb]
          simp only [List.length_cons]
          omega
        · rw [if_neg hb, if_neg hb]
          omega
      · rw [if_neg hc] at h
        injection h with h1 h2
        subst h2
        have hstep : nbAux (c :: rest) b = nbAux rest (b || !wsChar c) := by
          simp [nbAux, hc]
        rw [hstep, ih (b || !wsChar c) l2 ls2 hr]
        have hnb : nonBlankLine l = (!wsChar c || nonBlankLine l2) := by
          rw [← h1]
          simp [nonBlankLine]
        rw [hnb, Bool.or_assoc]

lemma countNonBlankLines_eq_nbAux (cs : List Char) :
    countNonBlankLines cs = nbAux cs false := by
  unfold countNonBlankLines
  rcases h : splitLines cs with _ | ⟨l, ls⟩
  · exact absurd h (splitLines_ne_nil cs)
  · rw [nbAux_splitLines cs false l ls h]
    rw [List.filter_cons]
    by_cases hb : nonBlankLine l = true <;> simp [hb] <;> omega

lemma nbAux_append (a b : List Char) : ∀ s : Bool,
    nbAux (a ++ '\n' :: b) s = nbAux a s + nbAux b false := by
  induction a with
  | nil =>
    intro s
    show nbAux ('\n' :: b) s = nbAux [] s + nbAux b false
    simp [nbAux]
  | cons c a2 ih =>
    intro s
    by_cases hc : c = '\n' <;> simp [nbAux, hc, ih] <;> omega

lemma nbAux_true_pos : ∀ cs : List Char, 1 ≤ nbAux cs true := by
  intro cs
  induction cs with
  | nil => simp [nbAux]
  | cons c rest ih =>
    by_cases hc : c = '\n' <;> simp [nbAux, hc] <;> omega

lemma nbAux_pos_of_any : ∀ cs : List Char,
    cs.any (fun c => !wsChar c) = true → 1 ≤ nbAux cs false := by
  intro cs
  induction cs with
  | nil => intro h; cases h
  | cons c rest ih =>
    intro h
    by_cases hw : wsChar c = true
    · have hany : rest.any (fun c => !wsChar c) = true := by
        rw [List.any_cons] at h
        have hpc : (!wsChar c) = false := by rw [hw]; rfl
        rw [hpc, Bool.false_or] at h
        exact h
      by_cases hc : c = '\n'
      · subst hc
        have hstep : nbAux ('\n' :: rest) false = nbAux rest false := by simp [nbAux]
        rw [hstep]
        exact ih hany
      · have h2 : (false || !wsChar c) = false := by rw [hw]; rfl
        have hstep : nbAux (c :: rest) false = nbAux rest false := by
          simp [nbAux, hc, h2]
        rw [hstep]
        exact ih hany
    · have hwf : wsChar c = false := Bool.eq_false_iff.mpr hw
      have hc : c ≠ '\n' := by
        intro hcn
        rw [hcn] at hwf
        cases hwf
      simp [nbAux, hc, hwf]
      exact nbAux_true_pos rest

lemma any_of_nbAux_pos : ∀ cs : List Char,
    1 ≤ nbAux cs false → cs.any (fun c => !wsChar c) = true := by
  intro cs
  induction cs with
  | nil => intro h; simp [nbAux] at h
  | cons c rest ih =>
    intro h
    by_cases hc : c = '\n'
    · subst hc
      have hstep : nbAux ('\n' :: rest) false = nbAux rest false := by simp [nbAux]
      rw [hstep] at h
      rw [List.any_cons, ih h]
      simp
    · by_cases hw : wsChar c = true
      · have h2 : (false || !wsChar c) = false := by rw [hw]; rfl
        have hstep : nbAux (c :: rest) false = nbAux rest false := by
          simp [nbAux, hc, h2]
        rw [hstep] at h
        rw [List.any_cons, ih h]
        simp
      · simp [List.any_cons, Bool.eq_false_iff.mpr hw]

lemma nbAux_two_split : ∀ (cs : List Char) (b : Bool), 2 ≤ nbAux cs b →
    ∃ u d v, cs = u ++ d :: v ∧ wsChar d = false ∧ '\n' ∈ u := by
  intro cs
  induction cs with
  | nil =>
    intro b h
    cases b <;> simp [nbAux] at h
  | cons c rest ih =>
    intro b h
    by_cases hc : c = '\n'
    · subst hc
      simp only [nbAux, if_pos rfl] at h
      by_cases h2 : 2 ≤ nbAux rest false
      · obtain ⟨u, d, v, he, hd, hm⟩ := ih false h2
        exact ⟨'\n' :: u, d, v, by rw [he]; rfl, hd, by simp [hm]⟩
      · have h1 : 1 ≤ nbAux rest false := by
          by_cases hb : b = true <;> simp [hb] at h <;> omega
        have hany := any_of_nbAux_pos rest h1
        obtain ⟨d, hdm, hd⟩ := List.any_eq_true.mp hany
        obtain ⟨u2, v2, rfl⟩ := List.append_of_mem hdm
        exact ⟨'\n' :: u2, d, v2, rfl, by simpa using hd, by simp⟩
    · simp only [nbAux, if_neg hc] at h
      obtain ⟨u, d, v, he, hd, hm⟩ := ih (b || !wsChar c) h
      exact ⟨c :: u, d, v, by rw [he]; rfl, hd, by simp [hm]⟩

lemma mem_dropWhile_iff {p : Char → Bool} {x : Char} (hx : p x = true) :
    ∀ l : List Char, (x ∈ l.dropWhile p) ↔
      ∃ u d v, l = u ++ d :: v ∧ p d = false ∧ x ∈ v := by
  intro l
  induction l with
  | nil =>
    simp only [List.dropWhile_nil, List.not_mem_nil, false_iff]
    rintro ⟨u, d, v, he, _, _⟩
    exact absurd he (by simp)
  | cons c t ih =>
    by_cases hc : p c = true
    · rw [List.dropWhile_cons_of_pos hc, ih]
      constructor
      · rintro ⟨u, d, v, he, hd, hm⟩
        exact ⟨c :: u, d, v, by rw [he]; rfl, hd, hm⟩
      · rintro ⟨u, d, v, he, hd, hm⟩
        cases u with
        | nil =>
          injection he with h1 h2
          subst h1
          rw [hc] at hd
          cases hd
        | cons u0 u2 =>
          injection he with h1 h2
          exact ⟨u2, d, v, h2, hd, hm⟩
    · rw [List.dropWhile_cons_of_neg hc]
      constructor
      · intro hm
        rcases List.mem_cons.mp hm with h | h
        · subst h
          exact absurd hx hc
        · exact ⟨[], c, t, rfl, Bool.eq_false_iff.mpr hc, h⟩
      · rintro ⟨u, d, v, he, hd, hm⟩
        rw [he]
        exact List.mem_append.mpr (Or.inr (List.mem_cons.mpr (Or.inr hm)))

lemma newline_mem_trim_iff : ∀ cs : List Char,
    ('\n' ∈ trimChars cs) ↔ 2 ≤ nbAux cs false := by
  intro cs
  induction cs with
  | nil => simp [trimChars, nbAux]
  | cons c rest ih =>
    by_cases hw : wsChar c = true
    · have h1 : trimChars (c :: rest) = trimChars rest := by
        unfold trimChars
        rw [List.dropWhile_cons_of_pos hw]
      have h2 : nbAux (c :: rest) false = nbAux rest false := by
        by_cases hc : c = '\n' <;> simp [nbAux, hc, hw]
      rw [h1, h2]
      exact ih
    · have hwf : wsChar c = false := Bool.eq_false_iff.mpr hw
      have h1 : trimChars (c :: rest) = ((c :: rest).reverse.dropWhile wsChar).reverse := by
        unfold trimChars
        rw [List.dropWhile_cons_of_neg hw]
      rw [h1, List.mem_reverse, mem_dropWhile_iff (by decide : wsChar '\n' = true)]
      constructor
      · rintro ⟨u, d, v, he, hd, hm⟩
        have hcs : c :: rest = v.reverse ++ d :: u.reverse := by
          rw [← List.reverse_reverse (c :: rest), he]
          simp [List.reverse_append]
        obtain ⟨a, b2, hab⟩ := List.append_of_mem (List.mem_reverse.mpr hm)
        have hcs2 : c :: rest = a ++ '\n' :: (b2 ++ d :: u.reverse) := by
          rw [hcs, hab]
          simp [List.append_assoc]
        have hcount : nbAux (c :: rest) false =
            nbAux a false + nbAux (b2 ++ d :: u.reverse) false := by
          rw [hcs2]
          exact nbAux_append a (b2 ++ d :: u.reverse) false
        have hrest : 1 ≤ nbAux (b2 ++ d :: u.reverse) false :=
          nbAux_pos_of_any _ (List.any_eq_true.mpr ⟨d, by simp, by simp [hd]⟩)
        have hhead : 1 ≤ nbAux a false := by
          cases a with
          | nil =>
            injection hcs2 with h1 h2
            rw [h1] at hwf
            exact absurd hwf (by decide)
          | cons a0 a2 =>
            injection hcs2 with h1 h2
            subst h1
            have : nbAux (c :: a2) false = nbAux a2 true := by
              have hcn : c ≠ '\n' := by
                intro hcn
                rw [hcn] at hwf
                cases hwf
              simp [nbAux, hcn, hwf]
            rw [this]
            exact nbAux_true_pos a2
        omega
      · intro h2
        obtain ⟨u, d, v, he, hd, hm⟩ := nbAux_two_split (c :: rest) false h2
        refine ⟨v.reverse, d, u.reverse, ?_, hd, List.mem_reverse.mpr hm⟩
        rw [he]
        simp [List.reverse_append]

/-!
### Claim C10 — empty-input failure and row skipping
-/

/-- C10: `parseCSV` fails with the empty-input error exactly when the input
has fewer than two non-blank lines; with a header and at least one data line
it returns normally, keeping exactly the data lines whose parsed field count
equals the header's and skipping the others. -/
theorem claim10_parse_gate (content : List Char) :
    (parseCSV content = none ↔ countNonBlankLines content < 2) ∧
    (∀ (headerLine : List Char) (dataLines : List (List Char)),
      splitLines (trimChars content) = headerLine :: dataLines → dataLines ≠ [] →
      parseCSV content = some (dataLines.filterMap (csvRowOf (csvHeaders headerLine)))) := by
  constructor
  · have h1 : parseCSV content = none ↔ (splitLines (trimChars content)).length < 2 := by
      unfold parseCSV
      rcases h : splitLines (trimChars content) with _ | ⟨hl, rest⟩
      · exact absurd h (splitLines_ne_nil _)
      · rcases rest with _ | ⟨d, ds⟩
        · simp
        · simp
    have h2 : (splitLines (trimChars content)).length < 2 ↔
        '\n' ∉ trimChars content := by
      rw [splitLines_length]
      constructor
      · intro h
        have hz : (trimChars content).count '\n' = 0 := by omega
        exact List.count_eq_zero.mp hz
      · intro h
        have hz : (trimChars content).count '\n' = 0 := List.count_eq_zero.mpr h
        omega
    rw [h1, h2, countNonBlankLines_eq_nbAux]
    have h3 := newline_mem_trim_iff content
    constructor
    · intro h
      exact Nat.lt_of_not_le (fun hle => h (h3.mpr hle))
    · intro h hmem
      exact absurd (h3.mp hmem) (by omega)
  · intro headerLine dataLines hsplit hne
    unfold parseCSV
    rw [hsplit]
    rcases dataLines with _ | ⟨d, ds⟩
    · exact absurd rfl hne
    · rfl

/-- C10 witness: a two-line input parses to its single data row; the amended
gate applied at a concrete input. -/
theorem claim10_witness :
    parseCSV "a,b\nc,d".toList =
      some ([['c', ',', 'd']].filterMap (csvRowOf (csvHeaders ['a', ',', 'b']))) :=
  (claim10_parse_gate "a,b\nc,d".toList).2 ['a', ',', 'b'] [['c', ',', 'd']]
    (by decide) (by decide)

end GpsCollector
